/-
Verification of the acquisition-optimization core of the MyGPyOpt repository
(`MyGPyOpt/optimization/acquisition_optimizer.py`).

The Python source is shallowly embedded: numpy float arrays become lists of
rationals (`Val := ℚ`; only storage, comparison and selection of values occur
in the verified code, no float-specific arithmetic), 2-D arrays become lists
of rows, and the stateful `AcquisitionOptimizer` object becomes an explicit
state record threaded through `optimize`.

Collaborators that live in modules outside the embedded file
(`anchor_points_generator.py`, `optimizer.py`, the design-space class) are
modelled from the specification: anchor-point generators and
`apply_optimizer` are taken as arbitrary function parameters (the theorems
hold for every behaviour of theirs), and `choose_optimizer` is modelled from
the spec as a name dispatch over {"lbfgs", "DIRECT", "CMA"}.
-/
import Mathlib

set_option linter.unusedVariables false

/-- Scalar values of the embedding (numpy floats in the source). -/
abbrev Val := ℚ

/-- A point: one row of a numpy array (full- or reduced-dimensional). -/
abbrev Point := List Val

/-- A 2-D numpy array as a list of rows. -/
abbrev Mat := List Point

/-- The objective callable `f` (operates on 2-D arrays in GPyOpt). -/
abbrev ObjFun := Mat → Val

/-- The gradient callable `df`. -/
abbrev GradFun := Mat → Mat

/-- The combined callable `f_df`. -/
abbrev FDFFun := Mat → Val × Mat

/-- Modelled from the spec: the external duplicate manager exposes
`is_duplicate(point) -> bool`; it is a pure query. -/
abbrev DupManager := Point → Bool

/-- Modelled from the spec: the external surrogate model exposes
`posterior_sample(points) -> sequence[float]` (used by Thompson sampling). -/
structure SurModel where
  posterior_sample : Mat → List Val

/-- Modelled from the spec (§6 Design Space boundary contract): a design-space
variable exposes `index_in_model`, `index_in_objective` and
`objective_to_model`. -/
structure DesignVariable where
  index_in_model : List ℕ
  index_in_objective : List ℕ
  objective_to_model : Val → List Val

/-- Modelled from the spec (§6): the design space exposes
`model_dimensionality`, `get_bounds()` (length = model dimensionality),
`config_space_expanded` (its length is the objective dimensionality),
and `find_variable(name)`. -/
structure DesignSpace where
  model_dimensionality : ℕ
  config_space_expanded : List Unit
  bounds : List (Val × Val)
  variable_list : List (String × DesignVariable)

/-- Modelled from the spec: `space.find_variable(name)` looks a variable up
by name; absent names are reported as `none` (`UnknownVariableError`). -/
def DesignSpace.find_variable (s : DesignSpace) (name : String) :
    Option DesignVariable :=
  (s.variable_list.find? (fun p => p.1 == name)).map Prod.snd

/-- Modelled from the spec: `space.get_bounds()`. -/
def DesignSpace.get_bounds (s : DesignSpace) : List (Val × Val) :=
  s.bounds

/-- State of `ContextManager` (acquisition_optimizer.py, lines 104-129):
all fields are computed in `__init__` and read-only afterwards. -/
structure ContextManager where
  space : DesignSpace
  all_index : List ℕ
  all_index_obj : List ℕ
  context_index : List ℕ
  context_value : List Val
  context_index_obj : List ℕ
  nocontext_index_obj : List ℕ
  noncontext_bounds : List (Val × Val)
  noncontext_index : List ℕ

/-- The context accumulation loop of `ContextManager.__init__` (lines
118-122): for each `(variable_name, value)` pair in iteration order, look the
variable up and concatenate its `index_in_model`, `index_in_objective` and
`objective_to_model(value)` onto the accumulated triples.  A missing
variable is `none` (`find_variable` fails). -/
def collectContext (space : DesignSpace) :
    List (String × Val) → Option (List ℕ × List ℕ × List Val)
  | [] => some ([], [], [])
  | (name, value) :: rest =>
    match space.find_variable name with
    | none => none
    | some v =>
      match collectContext space rest with
      | none => none
      | some (ci, cio, cv) =>
        some (v.index_in_model ++ ci, v.index_in_objective ++ cio,
              v.objective_to_model value ++ cv)

/-- `ContextManager.__init__` with `context=None` (lines 106-113): the
no-context state, from which the context branch then updates fields. -/
def ContextManager.ofSpace (space : DesignSpace) : ContextManager :=
  { space := space
    all_index := List.range space.model_dimensionality
    all_index_obj := List.range space.config_space_expanded.length
    context_index := []
    context_value := []
    context_index_obj := []
    nocontext_index_obj := List.range space.config_space_expanded.length
    noncontext_bounds := space.get_bounds
    noncontext_index := List.range space.model_dimensionality }

/-- `ContextManager.__init__` (lines 104-129).  With a context, the index
triples are accumulated by `collectContext` and the non-context index sets
and bounds are the order-preserving complements (lines 125-129). -/
def mkContextManager (space : DesignSpace)
    (context : Option (List (String × Val))) : Option ContextManager :=
  let base := ContextManager.ofSpace space
  match context with
  | none => some base
  | some ctx =>
    match collectContext space ctx with
    | none => none
    | some (ci, cio, cv) =>
      let nci := base.all_index.filter (fun idx => !ci.contains idx)
      some { base with
        context_index := ci
        context_index_obj := cio
        context_value := cv
        noncontext_index := nci
        noncontext_bounds := nci.map (fun idx => base.noncontext_bounds.getD idx (0, 0))
        nocontext_index_obj := base.all_index_obj.filter (fun idx => !cio.contains idx) }

/-- Sequential fancy-index column assignment on one row:
`row[j] = v` for each `(j, v)` write, later writes overwriting earlier
ones (numpy assignment semantics for `x_expanded[:, idxs] = vals`). -/
def scatterRow (row : List Val) (writes : List (ℕ × Val)) : List Val :=
  writes.foldl (fun r w => r.set w.1 w.2) row

/-- One row of `ContextManager._expand_vector` (lines 136-139): start from a
zero row of width `model_dimensionality`, write the reduced-space coordinates
at the `noncontext_index` columns, then the context values at the
`context_index` columns. -/
def ContextManager.expandRow (cm : ContextManager) (x : Point) : Point :=
  scatterRow
    (scatterRow (List.replicate cm.space.model_dimensionality 0)
      (cm.noncontext_index.zip x))
    (cm.context_index.zip cm.context_value)

/-- `ContextManager._expand_vector` on an input that is already 2-D
(`np.atleast_2d` is the identity there): row-wise expansion. -/
def ContextManager.expand_vector (cm : ContextManager) (x : Mat) : Mat :=
  x.map cm.expandRow

/-- `ContextManager._expand_vector` on a 1-D input: `np.atleast_2d` promotes
it to a single row first. -/
def ContextManager.expand_vector1 (cm : ContextManager) (x : Point) : Mat :=
  cm.expand_vector [x]

/-- Errors surfaced by one `optimize()` call.  `unsupportedOptimizerError`
is the spec's name for a bad optimizer name in `choose`;
`numpyConcatError` is numpy's `ValueError` from `np.vstack` on an empty
list; `unboundLocalError` is Python's error for reading the local
`anchor_points_generator` when neither branch assigned it;
`attributeError` is Python's error for reading `self.model` when it was
never set; `noAnchorPointsError` is the error named by the spec for
degenerate anchor generation (it appears nowhere in the code). -/
inductive PyError where
  | unsupportedOptimizerError
  | numpyConcatError
  | unboundLocalError
  | attributeError
  | noAnchorPointsError
deriving DecidableEq, Repr

/-- Modelled from the spec (§4.3): the optimizer instance produced by
`choose_optimizer`, bound to a name and box bounds. -/
structure OptimizerBackend where
  name : String
  bounds : List (Val × Val)

/-- Modelled from the spec (§4.3 `choose`): `choose_optimizer` maps a name
in {"lbfgs", "DIRECT", "CMA"} to a configured optimizer over the given
bounds; unknown names fail (`UnsupportedOptimizerError`).  The module-level
source constants (lines 9-12). -/
def choose_optimizer (name : String) (bounds : List (Val × Val)) :
    Except PyError OptimizerBackend :=
  if name = "lbfgs" ∨ name = "DIRECT" ∨ name = "CMA" then
    .ok { name := name, bounds := bounds }
  else
    .error .unsupportedOptimizerError

def max_objective_anchor_points_logic : String := "max_objective"

def thompson_sampling_anchor_points_logic : String := "thompson_sampling"

/-- The behaviour of `ObjectiveAnchorPointsGenerator(space, "random", f).get
(duplicate_manager, context_manager, x_opt)` — the generator class is not in
the embedded file, so its result is an arbitrary function of the arguments
the source passes to it. -/
abbrev ObjAnchorGen :=
  Option ObjFun → Option DupManager → ContextManager → Option Point → List Point

/-- The behaviour of `ThompsonSamplingAnchorPointsGenerator(space, "sobol",
model).get(duplicate_manager, context_manager, x_opt)`, abstracted the same
way. -/
abbrev TSAnchorGen :=
  SurModel → Option DupManager → ContextManager → Option Point → List Point

/-- The behaviour of `apply_optimizer(optimizer, anchor, f, df, f_df,
duplicate_manager, context_manager, space)` (optimizer.py, not in the
embedded file): one per-anchor run returning an optimized (point, value)
pair. -/
abbrev ApplyFn :=
  OptimizerBackend → Point → Option ObjFun → Option GradFun → Option FDFFun →
    Option DupManager → ContextManager → DesignSpace → Point × Val

/-- State of an `AcquisitionOptimizer` object (the fields `__init__` sets
and `optimize` reads or writes; the stashed callables `self.f`, `self.df`,
`self.f_df` are stored on lines 55-57 but never read again in this file, so
they are not tracked). -/
structure AcquisitionOptimizer where
  space : DesignSpace
  optimizer_name : String
  model : Option SurModel
  type_anchor_points_logic : String
  spec_win_cnt : ℕ
  context_manager : ContextManager

/-- `AcquisitionOptimizer.__init__` (lines 26-44): stores the space and
optimizer name, `spec_win_cnt = 0`, takes the anchor-points logic from
kwargs with default `"max_objective"` (any string is accepted — there is no
validation), and builds a no-context `ContextManager`.  Construction always
succeeds. -/
def mkAcquisitionOptimizer (space : DesignSpace) (optimizer : String)
    (model : Option SurModel) (type_anchor_points_logic : Option String) :
    AcquisitionOptimizer :=
  { space := space
    optimizer_name := optimizer
    model := model
    type_anchor_points_logic :=
      type_anchor_points_logic.getD max_objective_anchor_points_logic
    spec_win_cnt := 0
    context_manager := ContextManager.ofSpace space }

/-- `np.argmin` on a list of values: the index of the first occurrence of
the minimum (0 on the empty list, where numpy would raise instead; `optimize`
never reaches it on an empty list). -/
def argminIdx (l : List Val) : ℕ :=
  l.findIdx (fun v => decide (∀ w ∈ l, v ≤ w))

/-- The anchor-point selection of `optimize` (lines 63-71): the
`if`/`elif` chooses the generator — any other logic string leaves the local
`anchor_points_generator` unassigned and the use on line 70 raises
`UnboundLocalError`; the Thompson branch reads `self.model`, unset when the
constructor got no model (`AttributeError`). -/
def anchorPointsOf (s : AcquisitionOptimizer) (objGen : ObjAnchorGen)
    (tsGen : TSAnchorGen) (f : Option ObjFun)
    (duplicate_manager : Option DupManager) (x_opt : Option Point) :
    Except PyError (List Point) :=
  if s.type_anchor_points_logic = max_objective_anchor_points_logic then
    .ok (objGen f duplicate_manager s.context_manager x_opt)
  else if s.type_anchor_points_logic = thompson_sampling_anchor_points_logic then
    match s.model with
    | some m => .ok (tsGen m duplicate_manager s.context_manager x_opt)
    | none => .error .attributeError
  else
    .error .unboundLocalError

/-- Lines 60-78 of `optimize`: choose the backend over the non-context
bounds, select the anchor points, and run `apply_optimizer` at every anchor.
Line 77 passes `df=None` literally — the `df` argument of `optimize` is
stashed on `self` but never forwarded. -/
def optimizedPointsOf (s : AcquisitionOptimizer) (objGen : ObjAnchorGen)
    (tsGen : TSAnchorGen) (applyFn : ApplyFn) (f : Option ObjFun)
    (df : Option GradFun) (f_df : Option FDFFun)
    (duplicate_manager : Option DupManager) (x_opt : Option Point) :
    Except PyError (List (Point × Val)) := do
  let optimizer ← choose_optimizer s.optimizer_name s.context_manager.noncontext_bounds
  let anchor_points ← anchorPointsOf s objGen tsGen f duplicate_manager x_opt
  pure (anchor_points.map (fun a =>
    applyFn optimizer a f none f_df duplicate_manager s.context_manager s.space))

/-- `AcquisitionOptimizer.optimize` (lines 46-94): compute the per-anchor
optimized pairs, take `np.argmin` over their values (`np.vstack` on the
empty list raises a `ValueError`), increment `spec_win_cnt` when the winning
index is at least `num_anchors = 5`, and return the winning pair together
with the post-call object state. -/
def AcquisitionOptimizer.optimize (s : AcquisitionOptimizer)
    (objGen : ObjAnchorGen) (tsGen : TSAnchorGen) (applyFn : ApplyFn)
    (f : Option ObjFun) (df : Option GradFun) (f_df : Option FDFFun)
    (duplicate_manager : Option DupManager) (x_opt : Option Point) :
    Except PyError (AcquisitionOptimizer × Point × Val) := do
  let optimized_points ←
    optimizedPointsOf s objGen tsGen applyFn f df f_df duplicate_manager x_opt
  if optimized_points.isEmpty then
    .error .numpyConcatError
  else
    let min_idx := argminIdx (optimized_points.map Prod.snd)
    let num_anchors := 5
    let s' := if min_idx ≥ num_anchors then
        { s with spec_win_cnt := s.spec_win_cnt + 1 }
      else s
    let xf := optimized_points.getD min_idx ([], 0)
    pure (s', xf.1, xf.2)

/- Concrete instances used to witness the theorems below. -/

/-- A concrete continuous variable occupying model/objective index 0. -/
def vX0 : DesignVariable :=
  { index_in_model := [0], index_in_objective := [0],
    objective_to_model := fun v => [v] }

/-- A concrete continuous variable occupying model/objective index 1. -/
def vX1 : DesignVariable :=
  { index_in_model := [1], index_in_objective := [1],
    objective_to_model := fun v => [v] }

/-- A concrete two-dimensional design space over the unit box. -/
def space2 : DesignSpace :=
  { model_dimensionality := 2
    config_space_expanded := [(), ()]
    bounds := [(0, 1), (0, 1)]
    variable_list := [("x0", vX0), ("x1", vX1)] }

/-- The context manager of `space2` with variable `x0` pinned to 1/2. -/
def cmHalf : ContextManager :=
  (mkContextManager space2 (some [("x0", 1/2)])).getD (ContextManager.ofSpace space2)

/-- A concrete objective-anchor generator returning two anchors. -/
def objGen2 : ObjAnchorGen := fun _ _ _ _ => [[0, 0], [1, 1]]

/-- A concrete objective-anchor generator returning six anchors. -/
def objGen6 : ObjAnchorGen := fun _ _ _ _ => [[9], [8], [7], [6], [5], [4]]

/-- A concrete objective-anchor generator returning no anchors (the
duplicate manager rejected everything and no `x_opt` was given). -/
def objGenEmpty : ObjAnchorGen := fun _ _ _ _ => []

/-- A concrete Thompson-sampling generator (unused by the default logic). -/
def tsGen0 : TSAnchorGen := fun _ _ _ _ => []

/-- A concrete `apply_optimizer` behaviour: return the anchor itself with
its first coordinate as the value. -/
def applyHead : ApplyFn := fun _ a _ _ _ _ _ _ => (a, a.headD 0)

/-- A concrete `apply_optimizer` behaviour that reports which `df` argument
it received: value 1 when a gradient was passed, 0 when `None` was. -/
def applyProbeDf : ApplyFn := fun _ a _ df _ _ _ _ =>
  (a, if df.isSome then 1 else 0)

/-- A concrete gradient callable. -/
def gradId : GradFun := fun m => m

/-- A freshly constructed `AcquisitionOptimizer` over `space2` with the
default "lbfgs" backend and default anchor logic. -/
def acq0 : AcquisitionOptimizer :=
  mkAcquisitionOptimizer space2 "lbfgs" none none

/-- An `AcquisitionOptimizer` constructed with an unrecognized anchor-points
logic string. -/
def acqBogus : AcquisitionOptimizer :=
  mkAcquisitionOptimizer space2 "lbfgs" none (some "bogus")

/-- The state `acq0` after one call in which a beyond-the-first-five anchor
won: `spec_win_cnt` has been incremented once. -/
def acqWin : AcquisitionOptimizer :=
  { acq0 with spec_win_cnt := 1 }

/- Helper lemmas about the embedding. -/

theorem scatterRow_length (row : List Val) (ws : List (ℕ × Val)) :
    (scatterRow row ws).length = row.length := by
  induction ws generalizing row with
  | nil => rfl
  | cons w rest ih => simpa [scatterRow] using (ih (row.set w.1 w.2)).trans (by simp)

theorem scatterRow_getElem?_of_not_mem {j : ℕ} {ws : List (ℕ × Val)}
    (row : List Val) (h : ∀ w ∈ ws, w.1 ≠ j) :
    (scatterRow row ws)[j]? = row[j]? := by
  induction ws generalizing row with
  | nil => rfl
  | cons w rest ih =>
    have hw : w.1 ≠ j := h w (by simp)
    have hrest : ∀ w' ∈ rest, w'.1 ≠ j := fun w' hw' => h w' (by simp [hw'])
    calc (scatterRow (row.set w.1 w.2) rest)[j]?
        = (row.set w.1 w.2)[j]? := ih _ hrest
      _ = row[j]? := List.getElem?_set_ne hw

theorem scatterRow_getElem?_of_nodup {j : ℕ} {v : Val} {ws : List (ℕ × Val)}
    (row : List Val) (hnd : (ws.map Prod.fst).Nodup) (hmem : (j, v) ∈ ws)
    (hj : j < row.length) :
    (scatterRow row ws)[j]? = some v := by
  induction ws generalizing row with
  | nil => simp at hmem
  | cons w rest ih =>
    rw [List.map_cons, List.nodup_cons] at hnd
    rcases List.mem_cons.mp hmem with heq | htail
    · subst heq
      have hrest : ∀ w' ∈ rest, w'.1 ≠ j := by
        intro w' hw'
        intro hc
        have hmem' : w'.1 ∈ rest.map Prod.fst := List.mem_map_of_mem Prod.fst hw'
        rw [hc] at hmem'
        exact hnd.1 hmem'
      calc (scatterRow (row.set j v) rest)[j]?
          = (row.set j v)[j]? := scatterRow_getElem?_of_not_mem _ hrest
        _ = some v := List.getElem?_set_self hj
    · exact ih (row.set w.1 w.2) hnd.2 htail (by simpa using hj)

theorem exists_list_min (l : List Val) (h : l ≠ []) :
    ∃ v ∈ l, ∀ w ∈ l, v ≤ w := by
  induction l with
  | nil => simp at h
  | cons a t ih =>
    rcases eq_or_ne t [] with rfl | hne
    · exact ⟨a, by simp, by simp⟩
    · obtain ⟨v, hv, hmin⟩ := ih hne
      rcases le_total a v with hle | hle
      · exact ⟨a, by simp, by
          intro w hw
          rcases List.mem_cons.mp hw with rfl | hw
          · exact le_refl w
          · exact hle.trans (hmin w hw)⟩
      · exact ⟨v, by simp [hv], by
          intro w hw
          rcases List.mem_cons.mp hw with rfl | hw
          · exact hle
          · exact hmin w hw⟩

theorem argminIdx_lt_length {l : List Val} (h : l ≠ []) :
    argminIdx l < l.length := by
  obtain ⟨v, hv, hmin⟩ := exists_list_min l h
  exact List.findIdx_lt_length_of_exists ⟨v, hv, decide_eq_true hmin⟩

theorem argminIdx_is_min {l : List Val} (h : l ≠ []) :
    ∀ w ∈ l, l.getD (argminIdx l) 0 ≤ w := by
  have hlt := argminIdx_lt_length h
  have := List.findIdx_getElem (p := fun v => decide (∀ w ∈ l, v ≤ w)) (w := hlt)
  have hmin := of_decide_eq_true this
  intro w hw
  rw [List.getD_eq_getElem l 0 hlt]
  exact hmin w hw

theorem argminIdx_first {l : List Val} (h : l ≠ []) {j : ℕ}
    (hj : j < argminIdx l) :
    l.getD (argminIdx l) 0 < l.getD j 0 := by
  have hlt := argminIdx_lt_length h
  have hjl : j < l.length := hj.trans hlt
  have hnot := List.not_of_lt_findIdx (p := fun v => decide (∀ w ∈ l, v ≤ w)) hj
  rw [decide_eq_false_iff_not] at hnot
  push_neg at hnot
  obtain ⟨w, hw, hwlt⟩ := hnot
  have hmin := argminIdx_is_min h w hw
  rw [List.getD_eq_getElem l 0 hjl]
  exact lt_of_le_of_lt hmin hwlt

theorem mkContextManager_none (space : DesignSpace) :
    mkContextManager space none = some (ContextManager.ofSpace space) := rfl

theorem mkContextManager_some_fields {space : DesignSpace}
    {ctx : List (String × Val)} {cm : ContextManager}
    (h : mkContextManager space (some ctx) = some cm) :
    cm.space = space ∧
    cm.all_index = List.range space.model_dimensionality ∧
    cm.noncontext_index = (List.range space.model_dimensionality).filter
      (fun idx => !cm.context_index.contains idx) ∧
    cm.noncontext_bounds = cm.noncontext_index.map
      (fun idx => space.bounds.getD idx (0, 0)) ∧
    collectContext space ctx = some (cm.context_index, cm.context_index_obj, cm.context_value) := by
  rcases hc : collectContext space ctx with _ | ⟨⟨ci, cio, cv⟩⟩
  · simp only [mkContextManager, hc] at h
    exact absurd h (by simp)
  · simp only [mkContextManager, hc, Option.some_inj] at h
    subst h
    refine ⟨rfl, rfl, ?_, ?_, ?_⟩ <;>
      simp [ContextManager.ofSpace, DesignSpace.get_bounds, hc]

theorem collectContext_index_lt {space : DesignSpace}
    {ctx : List (String × Val)} {ci : List ℕ} {cio : List ℕ} {cv : List Val}
    (hwf : ∀ p ∈ space.variable_list, ∀ j ∈ p.2.index_in_model,
      j < space.model_dimensionality)
    (h : collectContext space ctx = some (ci, cio, cv)) :
    ∀ j ∈ ci, j < space.model_dimensionality := by
  induction ctx generalizing ci cio cv with
  | nil =>
    simp [collectContext] at h
    obtain ⟨h1, h2, h3⟩ := h
    subst h1
    simp
  | cons p rest ih =>
    rw [collectContext] at h
    rcases hfv : space.find_variable p.1 with _ | v
    · rw [hfv] at h; exact absurd h (by simp)
    · rw [hfv] at h
      rcases hrec : collectContext space rest with _ | ⟨⟨ci', cio', cv'⟩⟩
      · rw [hrec] at h; exact absurd h (by simp)
      · rw [hrec] at h
        simp only [Option.some_inj, Prod.mk.injEq] at h
        obtain ⟨h1, h2, h3⟩ := h
        subst h1
        intro j hj
        rcases List.mem_append.mp hj with hv | hci'
        · unfold DesignSpace.find_variable at hfv
          rcases Option.map_eq_some'.mp hfv with ⟨q, hq, hqv⟩
          have hqmem := List.mem_of_find?_eq_some hq
          subst hqv
          exact hwf q hqmem j hv
        · exact ih hrec j hci'

theorem expandRow_length (cm : ContextManager) (x : Point) :
    (cm.expandRow x).length = cm.space.model_dimensionality := by
  simp [ContextManager.expandRow, scatterRow_length]

theorem expandRow_getD_noncontext (cm : ContextManager) (x : Point)
    (hnd : cm.noncontext_index.Nodup)
    (hsub : ∀ j ∈ cm.noncontext_index, j < cm.space.model_dimensionality)
    (hdisj : ∀ j ∈ cm.noncontext_index, j ∉ cm.context_index)
    (hx : x.length = cm.noncontext_index.length)
    {k : ℕ} (hk : k < cm.noncontext_index.length) :
    (cm.expandRow x).getD (cm.noncontext_index.getD k 0) 0 = x.getD k 0 := by
  have hkx : k < x.length := by rw [hx]; exact hk
  have hjget : cm.noncontext_index.getD k 0 = cm.noncontext_index[k] :=
    List.getD_eq_getElem _ _ hk
  set j := cm.noncontext_index.getD k 0 with hj
  have hjmem : j ∈ cm.noncontext_index := by
    rw [hjget]; exact List.getElem_mem hk
  have hnotouch : ∀ w ∈ cm.context_index.zip cm.context_value, w.1 ≠ j := by
    intro w hw hc
    have := (List.of_mem_zip (by rwa [← Prod.mk.eta (p := w)] at hw)).1
    rw [hc] at this
    exact hdisj j hjmem this
  have hzlen : cm.noncontext_index.length ≤ x.length := le_of_eq hx.symm
  have hfst : (cm.noncontext_index.zip x).map Prod.fst = cm.noncontext_index :=
    List.map_fst_zip _ _ hzlen
  have hklt : k < (cm.noncontext_index.zip x).length := by
    rw [List.length_zip]; exact lt_min hk hkx
  have hwmem : (j, x.getD k 0) ∈ cm.noncontext_index.zip x := by
    have : (cm.noncontext_index.zip x)[k] = (cm.noncontext_index[k], x[k]) :=
      List.getElem_zip
    rw [hjget, List.getD_eq_getElem _ _ hkx, ← this]
    exact List.getElem_mem hklt
  have hjd : j < cm.space.model_dimensionality := hsub j hjmem
  have hsome : (cm.expandRow x)[j]? = some (x.getD k 0) := by
    unfold ContextManager.expandRow
    rw [scatterRow_getElem?_of_not_mem _ hnotouch]
    exact scatterRow_getElem?_of_nodup _ (by rw [hfst]; exact hnd) hwmem
      (by rw [List.length_replicate]; exact hjd)
  rw [List.getD_eq_getElem?_getD, hsome]
  rfl

theorem expandRow_getD_context (cm : ContextManager) (x : Point)
    (hnd : cm.context_index.Nodup)
    (hsub : ∀ j ∈ cm.context_index, j < cm.space.model_dimensionality)
    (hcv : cm.context_value.length = cm.context_index.length)
    {k : ℕ} (hk : k < cm.context_index.length) :
    (cm.expandRow x).getD (cm.context_index.getD k 0) 0 =
      cm.context_value.getD k 0 := by
  have hkv : k < cm.context_value.length := by rw [hcv]; exact hk
  have hjget : cm.context_index.getD k 0 = cm.context_index[k] :=
    List.getD_eq_getElem _ _ hk
  set j := cm.context_index.getD k 0 with hj
  have hjmem : j ∈ cm.context_index := by
    rw [hjget]; exact List.getElem_mem hk
  have hzlen : cm.context_index.length ≤ cm.context_value.length := le_of_eq hcv.symm
  have hfst : (cm.context_index.zip cm.context_value).map Prod.fst = cm.context_index :=
    List.map_fst_zip _ _ hzlen
  have hklt : k < (cm.context_index.zip cm.context_value).length := by
    rw [List.length_zip]; exact lt_min hk hkv
  have hwmem : (j, cm.context_value.getD k 0) ∈ cm.context_index.zip cm.context_value := by
    have : (cm.context_index.zip cm.context_value)[k] =
        (cm.context_index[k], cm.context_value[k]) := List.getElem_zip
    rw [hjget, List.getD_eq_getElem _ _ hkv, ← this]
    exact List.getElem_mem hklt
  have hjd : j < cm.space.model_dimensionality := hsub j hjmem
  have hsome : (cm.expandRow x)[j]? = some (cm.context_value.getD k 0) := by
    unfold ContextManager.expandRow
    refine scatterRow_getElem?_of_nodup _ (by rw [hfst]; exact hnd) hwmem ?_
    rw [scatterRow_length, List.length_replicate]
    exact hjd
  rw [List.getD_eq_getElem?_getD, hsome]
  rfl

theorem mk_noncontext_props {space : DesignSpace} {ctx : List (String × Val)}
    {cm : ContextManager} (h : mkContextManager space (some ctx) = some cm) :
    cm.noncontext_index.Nodup ∧
    (∀ j ∈ cm.noncontext_index, j < space.model_dimensionality) ∧
    (∀ j ∈ cm.noncontext_index, j ∉ cm.context_index) := by
  obtain ⟨hsp, hall, hnci, hncb, hcoll⟩ := mkContextManager_some_fields h
  refine ⟨?_, ?_, ?_⟩
  · rw [hnci]; exact (List.nodup_range _).filter _
  · intro j hj
    rw [hnci] at hj
    exact List.mem_range.mp (List.mem_of_mem_filter hj)
  · intro j hj
    rw [hnci] at hj
    have := List.of_mem_filter hj
    simpa using this

theorem optimize_ok_dissect {s : AcquisitionOptimizer} {objGen : ObjAnchorGen}
    {tsGen : TSAnchorGen} {applyFn : ApplyFn} {f : Option ObjFun}
    {df : Option GradFun} {f_df : Option FDFFun} {dm : Option DupManager}
    {x_opt : Option Point} {pts : List (Point × Val)}
    {s' : AcquisitionOptimizer} {x : Point} {v : Val}
    (hpts : optimizedPointsOf s objGen tsGen applyFn f df f_df dm x_opt = .ok pts)
    (hok : s.optimize objGen tsGen applyFn f df f_df dm x_opt = .ok (s', x, v)) :
    pts ≠ [] ∧
    (x, v) = pts.getD (argminIdx (pts.map Prod.snd)) ([], 0) ∧
    s' = (if 5 ≤ argminIdx (pts.map Prod.snd) then
        { s with spec_win_cnt := s.spec_win_cnt + 1 } else s) := by
  unfold AcquisitionOptimizer.optimize at hok
  rw [hpts] at hok
  simp only [bind, Except.bind] at hok
  by_cases hemp : pts.isEmpty
  · rw [if_pos hemp] at hok
    exact absurd hok (by simp)
  · rw [if_neg hemp] at hok
    simp only [pure, Except.pure, Except.ok.injEq, Prod.mk.injEq] at hok
    obtain ⟨hs, hx, hv⟩ := hok
    refine ⟨by simpa using hemp, ?_, hs.symm⟩
    rw [← hx, ← hv]

theorem getD_map_snd {pts : List (Point × Val)} {j : ℕ} (hj : j < pts.length) :
    (pts.map Prod.snd).getD j 0 = (pts.getD j ([], 0)).2 := by
  rw [List.getD_eq_getElem _ _ (by simpa using hj), List.getD_eq_getElem _ _ hj,
    List.getElem_map]

/-- C1: whenever `AcquisitionOptimizer.optimize` returns normally from a
non-empty list of per-anchor optimized (point, value) pairs, the returned
value is ≤ the value of every individual pair, and the returned pair is the
pair of the earliest anchor attaining the minimum (every strictly earlier
pair has a strictly larger value). -/
theorem optimize_returns_first_min {s : AcquisitionOptimizer}
    {objGen : ObjAnchorGen} {tsGen : TSAnchorGen} {applyFn : ApplyFn}
    {f : Option ObjFun} {df : Option GradFun} {f_df : Option FDFFun}
    {dm : Option DupManager} {x_opt : Option Point} {pts : List (Point × Val)}
    {s' : AcquisitionOptimizer} {x : Point} {v : Val}
    (hpts : optimizedPointsOf s objGen tsGen applyFn f df f_df dm x_opt = .ok pts)
    (hok : s.optimize objGen tsGen applyFn f df f_df dm x_opt = .ok (s', x, v)) :
    (∀ p ∈ pts, v ≤ p.2) ∧
    ∃ k, k < pts.length ∧ pts.getD k ([], 0) = (x, v) ∧
      ∀ j, j < k → v < (pts.getD j ([], 0)).2 := by
  obtain ⟨hne, hxv, _⟩ := optimize_ok_dissect hpts hok
  set vals := pts.map Prod.snd with hvals
  have hvne : vals ≠ [] := by simp [hvals, hne]
  have hlen : vals.length = pts.length := by simp [hvals]
  have hmlt : argminIdx vals < pts.length := hlen ▸ argminIdx_lt_length hvne
  have hv : v = vals.getD (argminIdx vals) 0 := by
    rw [hvals, getD_map_snd hmlt, ← hxv]
  constructor
  · intro p hp
    have hpv : p.2 ∈ vals := by
      rw [hvals]; exact List.mem_map_of_mem Prod.snd hp
    rw [hv]
    exact argminIdx_is_min hvne p.2 hpv
  · refine ⟨argminIdx vals, hmlt, hxv.symm, ?_⟩
    intro j hj
    have hjp : j < pts.length := hj.trans hmlt
    rw [hv, ← getD_map_snd hjp]
    exact argminIdx_first hvne hj

/-- C1 witness: a concrete run with two anchors whose optimized values are
0 and 1; the returned pair is the first one and its value bounds both. -/
theorem optimize_returns_first_min_witness :
    (∀ p ∈ ([([0, 0], 0), ([1, 1], 1)] : List (Point × Val)), (0 : Val) ≤ p.2) ∧
    ∃ k, k < ([([0, 0], 0), ([1, 1], 1)] : List (Point × Val)).length ∧
      ([([0, 0], 0), ([1, 1], 1)] : List (Point × Val)).getD k ([], 0)
        = ([0, 0], (0 : Val)) ∧
      ∀ j, j < k →
        (0 : Val) < (([([0, 0], 0), ([1, 1], 1)] : List (Point × Val)).getD j ([], 0)).2 :=
  @optimize_returns_first_min acq0 objGen2 tsGen0 applyHead
    none none none none none [([0, 0], 0), ([1, 1], 1)] acq0 [0, 0] 0 rfl rfl

/-- C2 counterexample: at a concrete optimizer state whose anchor generation
returns zero points, `optimize` fails with numpy's `ValueError` (from
`np.vstack` on the empty list), not with a `NoAnchorPointsError` — no such
error exists anywhere in the code. -/
theorem optimize_empty_anchors_not_noAnchorPointsError :
    acq0.optimize objGenEmpty tsGen0 applyHead none none none none none
      = .error .numpyConcatError ∧
    acq0.optimize objGenEmpty tsGen0 applyHead none none none none none
      ≠ .error .noAnchorPointsError := by
  have h1 : acq0.optimize objGenEmpty tsGen0 applyHead none none none none none
      = .error .numpyConcatError := rfl
  refine ⟨h1, fun h => ?_⟩
  rw [h1] at h
  simp at h

/-- C2 amended: if the optimizer backend resolves and anchor-point
generation returns zero anchor points (so `optimized_points` is empty),
`AcquisitionOptimizer.optimize` fails — but with the generic `ValueError`
that `np.vstack` raises on an empty list, not with a named
`NoAnchorPointsError`. -/
theorem optimize_empty_anchors_valueError {s : AcquisitionOptimizer}
    {objGen : ObjAnchorGen} {tsGen : TSAnchorGen} {applyFn : ApplyFn}
    {f : Option ObjFun} {df : Option GradFun} {f_df : Option FDFFun}
    {dm : Option DupManager} {x_opt : Option Point} {opt : OptimizerBackend}
    (hchoose : choose_optimizer s.optimizer_name s.context_manager.noncontext_bounds
      = .ok opt)
    (hanch : anchorPointsOf s objGen tsGen f dm x_opt = .ok []) :
    s.optimize objGen tsGen applyFn f df f_df dm x_opt
      = .error .numpyConcatError := by
  unfold AcquisitionOptimizer.optimize optimizedPointsOf
  rw [hchoose, hanch]
  simp [bind, Except.bind, pure, Except.pure]

/-- C2 witness: the amended theorem applied at the concrete empty-anchor
state. -/
theorem optimize_empty_anchors_valueError_witness :
    acq0.optimize objGenEmpty tsGen0 applyHead none none none none none
      = .error .numpyConcatError :=
  @optimize_empty_anchors_valueError acq0 objGenEmpty tsGen0 applyHead
    none none none none none
    ⟨"lbfgs", acq0.context_manager.noncontext_bounds⟩ rfl rfl

/-- C3 counterexample: `optimize` is called with a supplied gradient
`df = some gradId`, and the per-anchor `apply_optimizer` calls report the
`df` argument they actually received (value 1 for a gradient, 0 for `None`).
Both pairs carry value 0 — `apply` received `None` — whereas the map the
claim asserts (forwarding the supplied `df`) would carry value 1. -/
theorem apply_df_not_forwarded :
    optimizedPointsOf acq0 objGen2 tsGen0 applyProbeDf none (some gradId) none
      none none = .ok [([0, 0], 0), ([1, 1], 0)] ∧
    optimizedPointsOf acq0 objGen2 tsGen0 applyProbeDf none (some gradId) none
      none none ≠
      .ok ((objGen2 none none acq0.context_manager none).map (fun a =>
        applyProbeDf { name := "lbfgs", bounds := acq0.context_manager.noncontext_bounds }
          a none (some gradId) none none acq0.context_manager acq0.space)) := by
  have h1 : optimizedPointsOf acq0 objGen2 tsGen0 applyProbeDf none (some gradId)
      none none none = .ok [([0, 0], 0), ([1, 1], 0)] := rfl
  have h2 : (objGen2 none none acq0.context_manager none).map (fun a =>
      applyProbeDf { name := "lbfgs", bounds := acq0.context_manager.noncontext_bounds }
        a none (some gradId) none none acq0.context_manager acq0.space)
      = [([0, 0], 1), ([1, 1], 1)] := rfl
  refine ⟨h1, fun h => ?_⟩
  rw [h1, h2] at h
  simp at h

/-- C3 amended: line 77 passes `df=None` literally, so each per-anchor
`apply_optimizer` call receives `None` for `df` no matter what gradient was
supplied to `optimize`; consequently the whole call is independent of the
supplied `df` (a gradient can reach the backend only through `f_df`). -/
theorem optimize_df_ignored {s : AcquisitionOptimizer} {objGen : ObjAnchorGen}
    {tsGen : TSAnchorGen} {applyFn : ApplyFn} {f : Option ObjFun}
    {f_df : Option FDFFun} {dm : Option DupManager} {x_opt : Option Point}
    {opt : OptimizerBackend} {anchors : List Point} (df : Option GradFun)
    (hchoose : choose_optimizer s.optimizer_name s.context_manager.noncontext_bounds
      = .ok opt)
    (hanch : anchorPointsOf s objGen tsGen f dm x_opt = .ok anchors) :
    optimizedPointsOf s objGen tsGen applyFn f df f_df dm x_opt
      = .ok (anchors.map (fun a =>
          applyFn opt a f none f_df dm s.context_manager s.space)) ∧
    s.optimize objGen tsGen applyFn f df f_df dm x_opt
      = s.optimize objGen tsGen applyFn f none f_df dm x_opt := by
  constructor
  · unfold optimizedPointsOf
    rw [hchoose, hanch]
    rfl
  · rfl

/-- C3 witness: the amended theorem applied at the concrete probing state. -/
theorem optimize_df_ignored_witness :
    (optimizedPointsOf acq0 objGen2 tsGen0 applyProbeDf none (some gradId) none
        none none = .ok ([[0, 0], [1, 1]].map (fun a =>
          applyProbeDf { name := "lbfgs", bounds := acq0.context_manager.noncontext_bounds }
            a none none none none acq0.context_manager acq0.space))) ∧
    acq0.optimize objGen2 tsGen0 applyProbeDf none (some gradId) none none none
      = acq0.optimize objGen2 tsGen0 applyProbeDf none none none none none :=
  optimize_df_ignored (some gradId) rfl rfl

/-- C4: on every normal return of `optimize`, the diagnostic counter
`spec_win_cnt` is incremented by exactly 1 when the winning (first
minimum-value) index is at least `num_anchors = 5`, and left unchanged
otherwise. -/
theorem optimize_spec_win_cnt {s : AcquisitionOptimizer}
    {objGen : ObjAnchorGen} {tsGen : TSAnchorGen} {applyFn : ApplyFn}
    {f : Option ObjFun} {df : Option GradFun} {f_df : Option FDFFun}
    {dm : Option DupManager} {x_opt : Option Point} {pts : List (Point × Val)}
    {s' : AcquisitionOptimizer} {x : Point} {v : Val}
    (hpts : optimizedPointsOf s objGen tsGen applyFn f df f_df dm x_opt = .ok pts)
    (hok : s.optimize objGen tsGen applyFn f df f_df dm x_opt = .ok (s', x, v)) :
    (5 ≤ argminIdx (pts.map Prod.snd) →
      s'.spec_win_cnt = s.spec_win_cnt + 1) ∧
    (argminIdx (pts.map Prod.snd) < 5 →
      s'.spec_win_cnt = s.spec_win_cnt) := by
  obtain ⟨hne, hxv, hs⟩ := optimize_ok_dissect hpts hok
  constructor
  · intro h5
    rw [hs, if_pos h5]
  · intro h5
    rw [hs, if_neg (by omega)]

/-- C4 witness: a concrete run over six anchors with values
[9, 8, 7, 6, 5, 4]: the winning index is 5, beyond the first five
positions, and `spec_win_cnt` goes from 0 to 1. -/
theorem optimize_spec_win_cnt_witness :
    (5 ≤ argminIdx (([([9], 9), ([8], 8), ([7], 7), ([6], 6), ([5], 5),
        ([4], 4)] : List (Point × Val)).map Prod.snd) →
      acqWin.spec_win_cnt = acq0.spec_win_cnt + 1) ∧
    (argminIdx (([([9], 9), ([8], 8), ([7], 7), ([6], 6), ([5], 5),
        ([4], 4)] : List (Point × Val)).map Prod.snd) < 5 →
      acqWin.spec_win_cnt = acq0.spec_win_cnt) :=
  @optimize_spec_win_cnt acq0 objGen6 tsGen0 applyHead
    none none none none none
    [([9], 9), ([8], 8), ([7], 7), ([6], 6), ([5], 5), ([4], 4)]
    acqWin [4] 4 rfl rfl

theorem scatterRow_range_zip (x : Point) (d : ℕ) (hx : x.length = d) :
    scatterRow (List.replicate d 0) ((List.range d).zip x) = x := by
  apply List.ext_getElem
  · rw [scatterRow_length, List.length_replicate, hx]
  · intro j h1 h2
    have hjd : j < d := by
      rwa [scatterRow_length, List.length_replicate] at h1
    have hkl : j < ((List.range d).zip x).length := by
      rw [List.length_zip, List.length_range]
      omega
    have hjr : j < (List.range d).length := by
      rw [List.length_range]; exact hjd
    have hwmem : (j, x[j]) ∈ (List.range d).zip x := by
      have hz : ((List.range d).zip x)[j] = ((List.range d)[j], x[j]) :=
        List.getElem_zip
      rw [List.getElem_range] at hz
      rw [← hz]
      exact List.getElem_mem hkl
    have hsome : (scatterRow (List.replicate d 0) ((List.range d).zip x))[j]?
        = some x[j] := by
      apply scatterRow_getElem?_of_nodup
      · rw [List.map_fst_zip _ _ (by rw [List.length_range, hx])]
        exact List.nodup_range d
      · exact hwmem
      · rw [List.length_replicate]; exact hjd
    rw [List.getElem?_eq_getElem h1] at hsome
    exact Option.some_injective _ hsome

/-- C5: a `ContextManager` constructed with no context has
`noncontext_bounds` equal to the space's full bounds, `noncontext_index`
equal to `all_index`, empty context sets, and its expand operation is the
identity: a 1-D input of width `model_dimensionality` comes back unchanged
as a single-row matrix. -/
theorem contextManager_no_context (space : DesignSpace) (cm : ContextManager)
    (hcm : mkContextManager space none = some cm) :
    cm.noncontext_bounds = space.bounds ∧
    cm.noncontext_index = cm.all_index ∧
    cm.context_index = [] ∧ cm.context_value = [] ∧
    cm.context_index_obj = [] ∧
    ∀ x : Point, x.length = space.model_dimensionality →
      cm.expand_vector1 x = [x] := by
  have hcm' : cm = ContextManager.ofSpace space := by
    rw [mkContextManager_none] at hcm
    exact (Option.some_injective _ hcm).symm
  subst hcm'
  refine ⟨rfl, rfl, rfl, rfl, rfl, ?_⟩
  intro x hxlen
  show [ContextManager.expandRow _ x] = [x]
  congr 1
  unfold ContextManager.expandRow
  show scatterRow (scatterRow _ _) (List.zip [] []) = x
  rw [List.zip_nil_left]
  show scatterRow (List.replicate space.model_dimensionality 0)
      ((List.range space.model_dimensionality).zip x) = x
  exact scatterRow_range_zip x _ hxlen

/-- C5 witness: the no-context manager of the concrete 2-D space leaves
the width-2 row [3, 5] unchanged. -/
theorem contextManager_no_context_witness :
    (ContextManager.ofSpace space2).noncontext_bounds = space2.bounds ∧
    (ContextManager.ofSpace space2).noncontext_index
      = (ContextManager.ofSpace space2).all_index ∧
    (ContextManager.ofSpace space2).context_index = [] ∧
    (ContextManager.ofSpace space2).context_value = [] ∧
    (ContextManager.ofSpace space2).context_index_obj = [] ∧
    (ContextManager.ofSpace space2).expand_vector1 [3, 5] = [[3, 5]] := by
  obtain ⟨h1, h2, h3, h4, h5, h6⟩ :=
    contextManager_no_context space2 (ContextManager.ofSpace space2) rfl
  exact ⟨h1, h2, h3, h4, h5, h6 [3, 5] rfl⟩

theorem mk_partition {space : DesignSpace} {ctx : List (String × Val)}
    {cm : ContextManager}
    (hwf : ∀ p ∈ space.variable_list, ∀ j ∈ p.2.index_in_model,
      j < space.model_dimensionality)
    (hcm : mkContextManager space (some ctx) = some cm) :
    (∀ j, j ∈ cm.all_index ↔ (j ∈ cm.context_index ∨ j ∈ cm.noncontext_index)) ∧
    (∀ j, ¬ (j ∈ cm.context_index ∧ j ∈ cm.noncontext_index)) ∧
    List.Sorted (· < ·) cm.noncontext_index := by
  obtain ⟨hsp, hall, hnci, hncb, hcoll⟩ := mkContextManager_some_fields hcm
  have hci_lt := collectContext_index_lt hwf hcoll
  refine ⟨?_, ?_, ?_⟩
  · intro j
    constructor
    · intro hj
      by_cases hjc : j ∈ cm.context_index
      · exact Or.inl hjc
      · refine Or.inr ?_
        rw [hnci]
        refine List.mem_filter.mpr ⟨by rwa [hall] at hj, by simp [hjc]⟩
    · rintro (hjc | hjn)
      · rw [hall]
        exact List.mem_range.mpr (hci_lt j hjc)
      · rw [hall]
        rw [hnci] at hjn
        exact List.mem_of_mem_filter hjn
  · rintro j ⟨hjc, hjn⟩
    rw [hnci] at hjn
    have := List.of_mem_filter hjn
    simp at this
    exact this hjc
  · rw [hnci]
    exact List.Pairwise.filter _ (List.pairwise_lt_range _)

/-- C6: for every design space whose variables' model indices lie below the
model dimensionality and every context whose variables resolve in the space,
the constructed `ContextManager` satisfies: `all_index = [0, d)`, the union
of `context_index` and `noncontext_index` is `all_index`, the two are
disjoint, and `noncontext_index` is in the ascending order of `all_index`. -/
theorem contextManager_partition (space : DesignSpace)
    (ctx : List (String × Val)) (cm : ContextManager)
    (hwf : ∀ p ∈ space.variable_list, ∀ j ∈ p.2.index_in_model,
      j < space.model_dimensionality)
    (hcm : mkContextManager space (some ctx) = some cm) :
    cm.all_index = List.range space.model_dimensionality ∧
    (∀ j, j ∈ cm.all_index ↔ (j ∈ cm.context_index ∨ j ∈ cm.noncontext_index)) ∧
    (∀ j, ¬ (j ∈ cm.context_index ∧ j ∈ cm.noncontext_index)) ∧
    List.Sorted (· < ·) cm.noncontext_index := by
  obtain ⟨hsp, hall, hnci, hncb, hcoll⟩ := mkContextManager_some_fields hcm
  obtain ⟨h1, h2, h3⟩ := mk_partition hwf hcm
  exact ⟨hall, h1, h2, h3⟩

theorem space2_wf :
    ∀ p ∈ space2.variable_list, ∀ j ∈ p.2.index_in_model,
      j < space2.model_dimensionality := by
  intro p hp j hj
  show j < 2
  simp [space2] at hp
  rcases hp with h | h <;> rw [h] at hj <;> simp [vX0, vX1] at hj <;> omega

/-- C6 witness: the partition facts at the concrete space with `x0` pinned,
instantiated at indices 0 and 1. -/
theorem contextManager_partition_witness :
    (0 ∈ cmHalf.all_index ↔ (0 ∈ cmHalf.context_index ∨ 0 ∈ cmHalf.noncontext_index)) ∧
    (1 ∈ cmHalf.all_index ↔ (1 ∈ cmHalf.context_index ∨ 1 ∈ cmHalf.noncontext_index)) ∧
    ¬ (1 ∈ cmHalf.context_index ∧ 1 ∈ cmHalf.noncontext_index) ∧
    List.Sorted (· < ·) cmHalf.noncontext_index := by
  obtain ⟨hall, hiff, hdisj, hsort⟩ :=
    contextManager_partition space2 [("x0", 1/2)] cmHalf space2_wf rfl
  exact ⟨hiff 0, hiff 1, hdisj 1, hsort⟩

theorem expand_vector_getD_row (cm : ContextManager) (X : Mat) {i : ℕ}
    (hi : i < X.length) :
    (cm.expand_vector X).getD i [] = cm.expandRow (X.getD i []) := by
  unfold ContextManager.expand_vector
  rw [List.getD_eq_getElem _ _ (by simpa using hi), List.getD_eq_getElem _ _ hi,
    List.getElem_map]

theorem mk_context_sub {space : DesignSpace} {ctx : List (String × Val)}
    {cm : ContextManager}
    (hwf : ∀ p ∈ space.variable_list, ∀ j ∈ p.2.index_in_model,
      j < space.model_dimensionality)
    (hcm : mkContextManager space (some ctx) = some cm) :
    ∀ j ∈ cm.context_index, j < cm.space.model_dimensionality := by
  obtain ⟨hsp, hall, hnci, hncb, hcoll⟩ := mkContextManager_some_fields hcm
  rw [hsp]
  exact collectContext_index_lt hwf hcoll

/-- C7: for every well-formed `ContextManager` and 2-D input with rows of
width `len(noncontext_index)`, `expand` keeps the row count, produces rows
of width `model_dimensionality`, fills the `noncontext_index` columns from
the input (aligned to the order of `noncontext_index`), fills the
`context_index` columns with the matching `context_value` entries, every
model dimension belonging to exactly one of the two column sets; a 1-D
input is treated as the single-row matrix. -/
theorem expand_vector_spec (space : DesignSpace) (ctx : List (String × Val))
    (cm : ContextManager)
    (hcm : mkContextManager space (some ctx) = some cm)
    (hwf : ∀ p ∈ space.variable_list, ∀ j ∈ p.2.index_in_model,
      j < space.model_dimensionality)
    (hnd : cm.context_index.Nodup)
    (hcv : cm.context_value.length = cm.context_index.length)
    (X : Mat) (hX : ∀ row ∈ X, row.length = cm.noncontext_index.length) :
    (cm.expand_vector X).length = X.length ∧
    (∀ y ∈ cm.expand_vector X, y.length = space.model_dimensionality) ∧
    (∀ i, i < X.length → ∀ k, k < cm.noncontext_index.length →
      ((cm.expand_vector X).getD i []).getD (cm.noncontext_index.getD k 0) 0
        = (X.getD i []).getD k 0) ∧
    (∀ i, i < X.length → ∀ k, k < cm.context_index.length →
      ((cm.expand_vector X).getD i []).getD (cm.context_index.getD k 0) 0
        = cm.context_value.getD k 0) ∧
    (∀ j, j < space.model_dimensionality →
      (j ∈ cm.noncontext_index ∧ j ∉ cm.context_index) ∨
      (j ∈ cm.context_index ∧ j ∉ cm.noncontext_index)) ∧
    (∀ x : Point, cm.expand_vector1 x = cm.expand_vector [x]) := by
  obtain ⟨hsp, hall, hnci, hncb, hcoll⟩ := mkContextManager_some_fields hcm
  obtain ⟨hnnd, hnsub, hndisj⟩ := mk_noncontext_props hcm
  have hnsub' : ∀ j ∈ cm.noncontext_index, j < cm.space.model_dimensionality := by
    rw [hsp]; exact hnsub
  have hcsub' := mk_context_sub hwf hcm
  refine ⟨by simp [ContextManager.expand_vector], ?_, ?_, ?_, ?_, fun x => rfl⟩
  · intro y hy
    obtain ⟨row, hrow, hrweq⟩ := List.mem_map.mp hy
    rw [← hrweq, expandRow_length, hsp]
  · intro i hi k hk
    rw [expand_vector_getD_row cm X hi]
    exact expandRow_getD_noncontext cm _ hnnd hnsub' hndisj
      (hX _ (List.getD_eq_getElem X [] hi ▸ List.getElem_mem hi)) hk
  · intro i hi k hk
    rw [expand_vector_getD_row cm X hi]
    exact expandRow_getD_context cm _ hnd hcsub' hcv hk
  · intro j hj
    obtain ⟨hiff, hdisj, hsort⟩ := mk_partition hwf hcm
    have hmem : j ∈ cm.all_index := by
      rw [hall]; exact List.mem_range.mpr hj
    rcases (hiff j).mp hmem with hc | hn
    · exact Or.inr ⟨hc, fun hn => hdisj j ⟨hc, hn⟩⟩
    · exact Or.inl ⟨hn, fun hc => hdisj j ⟨hc, hn⟩⟩

/-- C7 witness: at the concrete pinned-`x0` manager, expanding the one-row
matrix [[7]] keeps one row of width 2, writes 7 at the non-context column 1
and the context value 1/2 at column 0. -/
theorem expand_vector_spec_witness :
    (cmHalf.expand_vector [[7]]).length = 1 ∧
    ((cmHalf.expand_vector [[7]]).getD 0 []).getD (cmHalf.noncontext_index.getD 0 0) 0
      = ([[7]].getD 0 []).getD 0 0 ∧
    ((cmHalf.expand_vector [[7]]).getD 0 []).getD (cmHalf.context_index.getD 0 0) 0
      = cmHalf.context_value.getD 0 0 ∧
    ((0 ∈ cmHalf.noncontext_index ∧ 0 ∉ cmHalf.context_index) ∨
      (0 ∈ cmHalf.context_index ∧ 0 ∉ cmHalf.noncontext_index)) := by
  obtain ⟨hlen, hwidth, hnc, hc, hpart, h1d⟩ :=
    expand_vector_spec space2 [("x0", 1/2)] cmHalf rfl space2_wf
      (by simp [cmHalf, mkContextManager, collectContext, space2,
        DesignSpace.find_variable, vX0, ContextManager.ofSpace])
      (by simp [cmHalf, mkContextManager, collectContext, space2,
        DesignSpace.find_variable, vX0, ContextManager.ofSpace])
      [[7]]
      (by
        intro row hrow
        simp at hrow
        rw [hrow]
        rfl)
  exact ⟨hlen, hnc 0 (by decide) 0 (by decide), hc 0 (by decide) 0 (by decide),
    hpart 0 (by decide)⟩

/-- C8: restricting an expanded row `y = expand(x)` to the
`noncontext_index` columns gives back `x`, and expanding that restriction
again returns `y` — an already-expanded full-width row whose non-context
columns match `x` is a fixed point of the restrict-then-expand
composition. -/
theorem expand_restrict_fixed_point (space : DesignSpace)
    (ctx : List (String × Val)) (cm : ContextManager)
    (hcm : mkContextManager space (some ctx) = some cm)
    (hwf : ∀ p ∈ space.variable_list, ∀ j ∈ p.2.index_in_model,
      j < space.model_dimensionality)
    (x : Point) (hx : x.length = cm.noncontext_index.length) :
    cm.noncontext_index.map (fun j => (cm.expandRow x).getD j 0) = x ∧
    cm.expand_vector
        [cm.noncontext_index.map (fun j => (cm.expandRow x).getD j 0)]
      = [cm.expandRow x] := by
  obtain ⟨hsp, hall, hnci, hncb, hcoll⟩ := mkContextManager_some_fields hcm
  obtain ⟨hnnd, hnsub, hndisj⟩ := mk_noncontext_props hcm
  have hnsub' : ∀ j ∈ cm.noncontext_index, j < cm.space.model_dimensionality := by
    rw [hsp]; exact hnsub
  have h1 : cm.noncontext_index.map (fun j => (cm.expandRow x).getD j 0) = x := by
    apply List.ext_getElem
    · rw [List.length_map, hx]
    · intro k hk1 hk2
      have hkn : k < cm.noncontext_index.length := by
        rwa [List.length_map] at hk1
      rw [List.getElem_map]
      have hcol := expandRow_getD_noncontext cm x hnnd hnsub' hndisj hx hkn
      rw [List.getD_eq_getElem _ _ hkn] at hcol
      rw [hcol, List.getD_eq_getElem _ _ hk2]
  refine ⟨h1, ?_⟩
  rw [h1]
  rfl

/-- C8 witness: at the concrete pinned-`x0` manager, expanding [7] gives
[1/2, 7]; restricting to the non-context column 1 returns [7], and
re-expanding reproduces [1/2, 7]. -/
theorem expand_restrict_fixed_point_witness :
    cmHalf.noncontext_index.map (fun j => (cmHalf.expandRow [7]).getD j 0) = [7] ∧
    cmHalf.expand_vector
        [cmHalf.noncontext_index.map (fun j => (cmHalf.expandRow [7]).getD j 0)]
      = [cmHalf.expandRow [7]] :=
  expand_restrict_fixed_point space2 [("x0", 1/2)] cmHalf rfl space2_wf [7] rfl

/-- C9: one `optimize` call never modifies the context manager (so none of
its fields `all_index`, `all_index_obj`, `context_index`, `context_value`,
`context_index_obj`, `noncontext_index`, `noncontext_bounds`,
`nocontext_index_obj` change), nor the space, nor any configuration field;
the duplicate manager is a read-only query passed down unchanged (the model
gives the collaborators no way to mutate it), and only `spec_win_cnt` may
change. -/
theorem optimize_read_only_frame {s : AcquisitionOptimizer}
    {objGen : ObjAnchorGen} {tsGen : TSAnchorGen} {applyFn : ApplyFn}
    {f : Option ObjFun} {df : Option GradFun} {f_df : Option FDFFun}
    {dm : Option DupManager} {x_opt : Option Point}
    {s' : AcquisitionOptimizer} {x : Point} {v : Val}
    (hok : s.optimize objGen tsGen applyFn f df f_df dm x_opt = .ok (s', x, v)) :
    s'.context_manager = s.context_manager ∧
    s'.space = s.space ∧
    s'.optimizer_name = s.optimizer_name ∧
    s'.model = s.model ∧
    s'.type_anchor_points_logic = s.type_anchor_points_logic := by
  rcases hpts : optimizedPointsOf s objGen tsGen applyFn f df f_df dm x_opt
    with e | pts
  · unfold AcquisitionOptimizer.optimize at hok
    rw [hpts] at hok
    simp [bind, Except.bind] at hok
  · obtain ⟨hne, hxv, hs⟩ := optimize_ok_dissect hpts hok
    rw [hs]
    split <;> exact ⟨rfl, rfl, rfl, rfl, rfl⟩

/-- C9 witness: a concrete successful call whose post-state has the same
context manager, space and configuration. -/
theorem optimize_read_only_frame_witness :
    (acq0.optimize objGen2 tsGen0 applyHead none none none none none
      = .ok (acq0, [0, 0], 0)) ∧
    acq0.context_manager = acq0.context_manager ∧
    acq0.space = acq0.space :=
  ⟨rfl,
    (@optimize_read_only_frame acq0 objGen2 tsGen0 applyHead
      none none none none none acq0 [0, 0] 0 rfl).1,
    (@optimize_read_only_frame acq0 objGen2 tsGen0 applyHead
      none none none none none acq0 [0, 0] 0 rfl).2.1⟩

/-- C10: constructing an `AcquisitionOptimizer` with any anchor-points logic
string other than "max_objective" or "thompson_sampling" succeeds (the
string is stored unvalidated), and every call to `optimize` (here with the
valid default backend "lbfgs") then fails with Python's unbound-local
error at the use of `anchor_points_generator` — not with any named
configuration error such as `UnsupportedOptimizerError`. -/
theorem bad_logic_unbound_local (space : DesignSpace) (model : Option SurModel)
    (logic : String) (objGen : ObjAnchorGen) (tsGen : TSAnchorGen)
    (applyFn : ApplyFn) (f : Option ObjFun) (df : Option GradFun)
    (f_df : Option FDFFun) (dm : Option DupManager) (x_opt : Option Point)
    (h1 : logic ≠ max_objective_anchor_points_logic)
    (h2 : logic ≠ thompson_sampling_anchor_points_logic) :
    (mkAcquisitionOptimizer space "lbfgs" model (some logic)).type_anchor_points_logic
      = logic ∧
    (mkAcquisitionOptimizer space "lbfgs" model (some logic)).optimize
        objGen tsGen applyFn f df f_df dm x_opt
      = .error .unboundLocalError ∧
    PyError.unboundLocalError ≠ PyError.unsupportedOptimizerError := by
  refine ⟨rfl, ?_, by decide⟩
  unfold AcquisitionOptimizer.optimize optimizedPointsOf anchorPointsOf
  simp [mkAcquisitionOptimizer, choose_optimizer, h1, h2, bind, Except.bind]

/-- C10 witness: the concrete optimizer built with logic "bogus". -/
theorem bad_logic_unbound_local_witness :
    acqBogus.type_anchor_points_logic = "bogus" ∧
    acqBogus.optimize objGen2 tsGen0 applyHead none none none none none
      = .error .unboundLocalError ∧
    PyError.unboundLocalError ≠ PyError.unsupportedOptimizerError :=
  bad_logic_unbound_local space2 none "bogus" objGen2 tsGen0 applyHead
    none none none none none (by decide) (by decide)
